import Mathlib

/-!
# Marlin `duration_t` (src/Marlin/src/libs/duration_t.h)

A shallow embedding of the `duration_t` value type: the stored second count,
the unit accessors with their return-type narrowing, the two comparison
operators, and the two text renderings `toString` and `toDigital`, whose
`sprintf_P` calls are modelled by a small interpreter for the conversions the
format strings use (`%i`, `%hu`, `%02hu`).

Machine integers are natural numbers; a conversion to an unsigned type of
width `w` is a reduction modulo `2 ^ w`.
-/

namespace Marlin

/-! ## Fixed-width unsigned integers -/

/-- Conversion to `uint8_t`. -/
def u8 (n : Nat) : Nat := n % 2 ^ 8

/-- Conversion to `uint16_t`. -/
def u16 (n : Nat) : Nat := n % 2 ^ 16

/-! ## The formatted-output routine

`sprintf_P(buffer, PSTR(fmt), args...)` copies the ordinary characters of the
format and replaces each conversion specification by the rendering of the next
argument. The arguments are the values the caller passes, after the default
argument promotions; every argument in this file is a `uint16_t`, hence a
non-negative `int`. -/

/-- One directive of a format string. -/
inductive Conv where
  /-- An ordinary character, copied unchanged. -/
  | chr (c : Char)
  /-- The conversion `%i`: a signed decimal integer. -/
  | int
  /-- The conversion `%hu` (`width = 0`) or `%02hu` (`width = 2`): the argument
  converted to `unsigned short`, in decimal, padded on the left with zeros to
  `width` characters. -/
  | ushort (width : Nat)
  deriving DecidableEq

/-- Splits a format string into its directives. Only the conversion
specifications that occur in `duration_t.h` are recognised. -/
def parseFormat : List Char → List Conv
  | [] => []
  | '%' :: 'i' :: rest => Conv.int :: parseFormat rest
  | '%' :: 'h' :: 'u' :: rest => Conv.ushort 0 :: parseFormat rest
  | '%' :: '0' :: '2' :: 'h' :: 'u' :: rest => Conv.ushort 2 :: parseFormat rest
  | c :: rest => Conv.chr c :: parseFormat rest

/-- Decimal digits of a natural number, as `printf` writes them. -/
def decimal (n : Nat) : List Char := (Nat.repr n).data

/-- Pads a digit string on the left with `'0'` up to `width` characters. -/
def zeroPad (width : Nat) (digits : List Char) : List Char :=
  List.replicate (width - digits.length) '0' ++ digits

/-- Renders one conversion applied to one argument. -/
def convert : Conv → Nat → List Char
  | Conv.chr c, _ => [c]
  | Conv.int, a => decimal a
  | Conv.ushort width, a => zeroPad width (decimal (u16 a))

/-- The characters written for a list of directives. Each conversion consumes
the next argument; a conversion for which the call supplies no argument reads
`stray`, whatever happens to lie where the argument would have been. -/
def vformat : List Conv → List Nat → Nat → List Char
  | [], _, _ => []
  | Conv.chr c :: fmt, args, stray => c :: vformat fmt args stray
  | conv :: fmt, a :: args, stray => convert conv a ++ vformat fmt args stray
  | conv :: fmt, [], stray => convert conv stray ++ vformat fmt [] stray

/-- The string `sprintf_P(buffer, PSTR(fmt), args...)` leaves in `buffer`
(without the terminating nul). -/
def sprintf_P (fmt : String) (args : List Nat) (stray : Nat) : String :=
  String.mk (vformat (parseFormat fmt.data) args stray)

/-! ## The duration type -/

/-- A duration: `uint32_t value`, the number of seconds. -/
structure duration_t where
  value : Nat
  deriving DecidableEq

namespace duration_t

/-- The constructor `duration_t(uint32_t const &seconds)`. -/
def ofSeconds (seconds : Nat) : duration_t := { value := seconds }

/-- The default constructor `duration_t()`, which delegates to `duration_t(0)`. -/
def default : duration_t := ofSeconds 0

/-- The operator `operator==(const uint32_t &value)`. -/
def eq (t : duration_t) (value : Nat) : Bool := decide (t.value = value)

/-- The operator `operator!=(const uint32_t &value)`. -/
def ne (t : duration_t) (value : Nat) : Bool := ! t.eq value

/-- The accessor `uint32_t second()`. -/
def second (t : duration_t) : Nat := t.value

/-- The accessor `uint32_t minute()`. -/
def minute (t : duration_t) : Nat := t.second / 60

/-- The accessor `uint32_t hour()`. -/
def hour (t : duration_t) : Nat := t.minute / 60

/-- The accessor `uint16_t day()`. -/
def day (t : duration_t) : Nat := u16 (t.hour / 24)

/-- The accessor `uint8_t year()`. -/
def year (t : duration_t) : Nat := u8 (t.day / 365)

/-- The method `char* toString(char * const buffer)`: the string left in
`buffer`. Every conversion of every format has its argument, so no stray value
is read. -/
def toString (t : duration_t) : String :=
  let y := u16 t.year
  let d := u16 (t.day % 365)
  let h := u16 (t.hour % 24)
  let m := u16 (t.minute % 60)
  let s := u16 (t.second % 60)
  if y ≠ 0 then sprintf_P "%iy %id %ih %im %is" [y, d, h, m, s] 0
  else if d ≠ 0 then sprintf_P "%id %ih %im %is" [d, h, m, s] 0
  else if h ≠ 0 then sprintf_P "%ih %im %is" [h, m, s] 0
  else if m ≠ 0 then sprintf_P "%im %is" [m, s] 0
  else sprintf_P "%is" [s] 0

/-- The method `uint8_t toDigital(char *buffer, bool with_days=false)`: the
string left in `buffer` and the returned value. In the last branch the format
has three conversions and the call passes two arguments, `h` and `m`; the
third conversion reads `stray`. -/
def toDigital (t : duration_t) (with_days : Bool) (stray : Nat) : String × Nat :=
  let h := u16 t.hour
  let m := u16 (t.minute % 60)
  let s := u16 (t.second % 60)
  if with_days then
    let d := u16 t.day
    (sprintf_P "%hud %02hu:%02hu:%02hu" [d, h % 24, m, s] stray,
      if d ≥ 10 then 12 else 11)
  else if h < 100 then
    (sprintf_P "%02hu:%02hu:%02hu" [h, m, s] stray, 8)
  else
    (sprintf_P "%hu:%02hu:%02hu" [h, m] stray, 9)

end duration_t

/-! ## The format of the spec -/

/-- The "full" rendering as the specification words it: the five components
computed from the second count by single divisions, printed from the first
non-zero unit downward. -/
def toString_reference (v : Nat) : String :=
  let y := v / 31536000
  let d := (v / 86400) % 365
  let h := (v / 3600) % 24
  let m := (v / 60) % 60
  let s := v % 60
  if y ≠ 0 then s!"{y}y {d}d {h}h {m}m {s}s"
  else if d ≠ 0 then s!"{d}d {h}h {m}m {s}s"
  else if h ≠ 0 then s!"{h}h {m}m {s}s"
  else if m ≠ 0 then s!"{m}m {s}s"
  else s!"{s}s"

/-- The "full" format of the specification applied to five given components:
the exact format strings by leading unit, the first non-zero component of
`y`, `d`, `h`, `m` deciding where the rendering starts. -/
def toString_format (y d h m s : Nat) : String :=
  if y ≠ 0 then s!"{y}y {d}d {h}h {m}m {s}s"
  else if d ≠ 0 then s!"{d}d {h}h {m}m {s}s"
  else if h ≠ 0 then s!"{h}h {m}m {s}s"
  else if m ≠ 0 then s!"{m}m {s}s"
  else s!"{s}s"

/-- A number printed in decimal and zero-padded to two digits. -/
def twoDigits (n : Nat) : String :=
  if n < 10 then s!"0{n}" else s!"{n}"

/-- The with-days "digital" format of the specification, `"{d}d {hh}:{mm}:{ss}"`:
the day count unpadded, then hours, minutes and seconds, each zero-padded to
two digits. -/
def toDigital_days_format (d hh mm ss : Nat) : String :=
  let hh := twoDigits hh
  let mm := twoDigits mm
  let ss := twoDigits ss
  s!"{d}d {hh}:{mm}:{ss}"

/-- The default "digital" format of the specification below 100 hours,
`"HH:MM:SS"`, each field zero-padded to two digits. -/
def toDigital_clock_format (hh mm ss : Nat) : String :=
  let hh := twoDigits hh
  let mm := twoDigits mm
  let ss := twoDigits ss
  s!"{hh}:{mm}:{ss}"

/-- The default "digital" format of the specification from 100 hours on,
`"H...H:MM"`: the hours unpadded, a colon, the minutes zero-padded to two
digits. -/
def toDigital_long_format (h mm : Nat) : String :=
  let mm := twoDigits mm
  s!"{h}:{mm}"

/-! ## Reading the full format

The full format is a sequence of fields, each a decimal number followed by its
one-letter unit, separated by single spaces. The definitions below describe
that shape and read a string of that shape back. -/

/-- The characters of a sequence of fields `(number, unit letter)`: each number
in decimal followed by its unit letter, with one space between fields. -/
def unitFields : List (Nat × Char) → List Char
  | [] => []
  | [(n, u)] => decimal n ++ [u]
  | (n, u) :: rest => decimal n ++ u :: ' ' :: unitFields rest

/-- The value of a decimal digit character. -/
def digitValue (c : Char) : Nat := c.toNat - '0'.toNat

/-- One step of reading the full format back. The state is the total so far and
the number being read: a unit letter closes the number and adds it with the
weight of its unit in seconds, a space is skipped, and any other character is
taken as the next decimal digit. -/
def readStep (st : Nat × Nat) (c : Char) : Nat × Nat :=
  if c = 'y' then (st.1 + st.2 * 31536000, 0)
  else if c = 'd' then (st.1 + st.2 * 86400, 0)
  else if c = 'h' then (st.1 + st.2 * 3600, 0)
  else if c = 'm' then (st.1 + st.2 * 60, 0)
  else if c = 's' then (st.1 + st.2, 0)
  else if c = ' ' then st
  else (st.1, st.2 * 10 + digitValue c)

/-- The second count a string in the full format stands for. -/
def readSeconds (s : String) : Nat := (s.data.foldl readStep (0, 0)).1

/-- The unit a rendering leads with: its first character that is not a digit. -/
def leadingUnit (s : String) : Option Char := s.data.find? (fun c => !c.isDigit)

/-- The leading numeric field of a rendering: the digits before its first
character that is not a digit. -/
def leadingField (s : String) : String := String.mk (s.data.takeWhile Char.isDigit)

/-- The number of fields of a rendering: one for each unit letter. -/
def fieldCount (s : String) : Nat := s.data.countP Char.isAlpha

/-- The fields of the full format for a second count `v`, by the magnitude of
`v`: from the first unit that `v` reaches down to the seconds. -/
def fullFields (v : Nat) : List (Nat × Char) :=
  if 31536000 ≤ v then
    [(v / 31536000, 'y'), (v / 86400 % 365, 'd'), (v / 3600 % 24, 'h'), (v / 60 % 60, 'm'),
      (v % 60, 's')]
  else if 86400 ≤ v then
    [(v / 86400 % 365, 'd'), (v / 3600 % 24, 'h'), (v / 60 % 60, 'm'), (v % 60, 's')]
  else if 3600 ≤ v then [(v / 3600 % 24, 'h'), (v / 60 % 60, 'm'), (v % 60, 's')]
  else if 60 ≤ v then [(v / 60 % 60, 'm'), (v % 60, 's')]
  else [(v % 60, 's')]

/-! ## Decimal rendering -/

theorem toString_nat (n : Nat) : ToString.toString n = Nat.repr n := rfl

theorem toString_str (s : String) : ToString.toString s = s := rfl

theorem toDigitsCore_append (fuel : Nat) : ∀ (n : Nat) (acc : List Char),
    Nat.toDigitsCore 10 fuel n acc = Nat.toDigitsCore 10 fuel n [] ++ acc := by
  induction fuel with
  | zero => intro n acc; simp [Nat.toDigitsCore]
  | succ fuel ih =>
    intro n acc
    simp only [Nat.toDigitsCore]
    split
    · simp
    · rw [ih _ (_ :: acc), ih _ [_]]; simp

theorem toDigitsCore_fuel (fuel : Nat) : ∀ (n fuel' : Nat), n < fuel → n < fuel' →
    Nat.toDigitsCore 10 fuel n [] = Nat.toDigitsCore 10 fuel' n [] := by
  induction fuel with
  | zero => intro n fuel' h; omega
  | succ fuel ih =>
    intro n fuel' hn hn'
    cases fuel' with
    | zero => omega
    | succ fuel' =>
      simp only [Nat.toDigitsCore]
      split
      · rfl
      · rw [toDigitsCore_append fuel, toDigitsCore_append fuel',
          ih (n / 10) fuel' (by omega) (by omega)]

theorem toDigitsCore_step (fuel n : Nat) (hn : n < fuel) :
    Nat.toDigitsCore 10 fuel n [] =
      if n < 10 then [Nat.digitChar n]
      else Nat.toDigitsCore 10 (n / 10 + 1) (n / 10) [] ++ [Nat.digitChar (n % 10)] := by
  cases fuel with
  | zero => omega
  | succ fuel =>
    by_cases h10 : n < 10
    · have h0 : n / 10 = 0 := by omega
      have hm : n % 10 = n := by omega
      simp [Nat.toDigitsCore, h10, h0, hm]
    · have h0 : ¬ n / 10 = 0 := by omega
      rw [if_neg h10, Nat.toDigitsCore, if_neg h0, toDigitsCore_append,
        toDigitsCore_fuel fuel (n / 10) (n / 10 + 1) (by omega) (by omega)]

theorem decimal_lt_ten {n : Nat} (h : n < 10) : decimal n = [Nat.digitChar n] := by
  simp only [decimal, Nat.repr, Nat.toDigits, List.asString]
  rw [toDigitsCore_step _ _ (by omega)]
  simp [h]

theorem decimal_ge_ten {n : Nat} (h : 10 ≤ n) :
    decimal n = decimal (n / 10) ++ [Nat.digitChar (n % 10)] := by
  simp only [decimal, Nat.repr, Nat.toDigits, List.asString]
  rw [toDigitsCore_step _ _ (by omega)]
  simp [show ¬ n < 10 by omega]

theorem decimal_length_one {n : Nat} (h : n < 10) : (decimal n).length = 1 := by
  simp [decimal_lt_ten h]

theorem decimal_length_two {n : Nat} (h1 : 10 ≤ n) (h2 : n < 100) :
    (decimal n).length = 2 := by
  rw [decimal_ge_ten h1, List.length_append, decimal_length_one (by omega)]
  rfl

theorem decimal_length_three {n : Nat} (h1 : 100 ≤ n) (h2 : n < 1000) :
    (decimal n).length = 3 := by
  rw [decimal_ge_ten (by omega), List.length_append, decimal_length_two (by omega) (by omega)]
  rfl

theorem decimal_length_pos (n : Nat) : 1 ≤ (decimal n).length := by
  by_cases h : n < 10
  · simp [decimal_lt_ten h]
  · rw [decimal_ge_ten (by omega)]; simp

theorem decimal_length_ge_three {n : Nat} (h : 100 ≤ n) : 3 ≤ (decimal n).length := by
  rw [decimal_ge_ten (by omega), decimal_ge_ten (show 10 ≤ n / 10 by omega)]
  have := decimal_length_pos (n / 10 / 10)
  simp only [List.length_append, List.length_singleton]
  omega

theorem decimal_length_le (n e : Nat) (he : 0 < e) (h : n < 10 ^ e) :
    (decimal n).length ≤ e := by
  exact Nat.repr_length n e he h

theorem decimal_length_ge_two {n : Nat} (h : 10 ≤ n) : 2 ≤ (decimal n).length := by
  rw [decimal_ge_ten h]
  have := decimal_length_pos (n / 10)
  simp only [List.length_append, List.length_singleton]
  omega

theorem zeroPad_zero (l : List Char) : zeroPad 0 l = l := by
  simp [zeroPad]

theorem zeroPad_two_length {n : Nat} (h : n < 100) : (zeroPad 2 (decimal n)).length = 2 := by
  by_cases h10 : n < 10
  · simp [zeroPad, decimal_length_one h10]
  · simp [zeroPad, decimal_length_two (by omega) h]

theorem zeroPad_two_length_ge (n : Nat) : 2 ≤ (zeroPad 2 (decimal n)).length := by
  simp only [zeroPad, List.length_append, List.length_replicate]
  omega

theorem twoDigits_data (n : Nat) : (twoDigits n).data = zeroPad 2 (decimal n) := by
  by_cases h10 : n < 10
  · have e : "0".data = ['0'] := rfl
    have hl : (Nat.repr n).data.length = 1 := decimal_length_one h10
    simp [twoDigits, h10, zeroPad, toString_nat, toString_str, e, decimal, hl]
  · have hl : 2 - (Nat.repr n).length = 0 := by
      have h2 : 2 ≤ (Nat.repr n).length := decimal_length_ge_two (show 10 ≤ n by omega)
      omega
    simp [twoDigits, h10, zeroPad, toString_nat, toString_str, decimal, hl]

theorem twoDigits_length {n : Nat} (h : n < 100) : (twoDigits n).length = 2 := by
  show (twoDigits n).data.length = 2
  rw [twoDigits_data, zeroPad_two_length h]

/-! ## Format strings of the two renderings -/

theorem format_ydhms : parseFormat "%iy %id %ih %im %is".data =
    [Conv.int, Conv.chr 'y', Conv.chr ' ', Conv.int, Conv.chr 'd', Conv.chr ' ',
      Conv.int, Conv.chr 'h', Conv.chr ' ', Conv.int, Conv.chr 'm', Conv.chr ' ',
      Conv.int, Conv.chr 's'] := rfl

theorem format_dhms : parseFormat "%id %ih %im %is".data =
    [Conv.int, Conv.chr 'd', Conv.chr ' ', Conv.int, Conv.chr 'h', Conv.chr ' ',
      Conv.int, Conv.chr 'm', Conv.chr ' ', Conv.int, Conv.chr 's'] := rfl

theorem format_hms : parseFormat "%ih %im %is".data =
    [Conv.int, Conv.chr 'h', Conv.chr ' ', Conv.int, Conv.chr 'm', Conv.chr ' ',
      Conv.int, Conv.chr 's'] := rfl

theorem format_ms : parseFormat "%im %is".data =
    [Conv.int, Conv.chr 'm', Conv.chr ' ', Conv.int, Conv.chr 's'] := rfl

theorem format_s : parseFormat "%is".data = [Conv.int, Conv.chr 's'] := rfl

theorem format_days : parseFormat "%hud %02hu:%02hu:%02hu".data =
    [Conv.ushort 0, Conv.chr 'd', Conv.chr ' ', Conv.ushort 2, Conv.chr ':',
      Conv.ushort 2, Conv.chr ':', Conv.ushort 2] := rfl

theorem format_clock : parseFormat "%02hu:%02hu:%02hu".data =
    [Conv.ushort 2, Conv.chr ':', Conv.ushort 2, Conv.chr ':', Conv.ushort 2] := rfl

theorem format_long : parseFormat "%hu:%02hu:%02hu".data =
    [Conv.ushort 0, Conv.chr ':', Conv.ushort 2, Conv.chr ':', Conv.ushort 2] := rfl

/-! ## The accessors on a 32-bit count -/

theorem minute_ofSeconds (v : Nat) : (duration_t.ofSeconds v).minute = v / 60 := rfl

theorem hour_ofSeconds (v : Nat) : (duration_t.ofSeconds v).hour = v / 3600 := by
  simp only [duration_t.hour, duration_t.minute, duration_t.second, duration_t.ofSeconds]
  omega

theorem day_ofSeconds (v : Nat) (hv : v < 2 ^ 32) :
    (duration_t.ofSeconds v).day = v / 86400 := by
  simp only [duration_t.day, hour_ofSeconds, u16]
  omega

theorem year_ofSeconds (v : Nat) (hv : v < 2 ^ 32) :
    (duration_t.ofSeconds v).year = v / 31536000 := by
  simp only [duration_t.year, day_ofSeconds v hv, u8]
  omega

/-! ## The full rendering -/

theorem toString_eq_reference (v : Nat) (hv : v < 2 ^ 32) :
    (duration_t.ofSeconds v).toString = toString_reference v := by
  have hy : u16 (duration_t.ofSeconds v).year = v / 31536000 := by
    rw [year_ofSeconds v hv, u16]; omega
  have hd : u16 ((duration_t.ofSeconds v).day % 365) = v / 86400 % 365 := by
    rw [day_ofSeconds v hv, u16]; omega
  have hh : u16 ((duration_t.ofSeconds v).hour % 24) = v / 3600 % 24 := by
    rw [hour_ofSeconds, u16]; omega
  have hm : u16 ((duration_t.ofSeconds v).minute % 60) = v / 60 % 60 := by
    rw [minute_ofSeconds, u16]; omega
  have hs : u16 ((duration_t.ofSeconds v).second % 60) = v % 60 := by
    simp only [duration_t.second, duration_t.ofSeconds, u16]; omega
  simp only [duration_t.toString, toString_reference, hy, hd, hh, hm, hs]
  split_ifs <;>
    simp only [sprintf_P, format_ydhms, format_dhms, format_hms, format_ms, format_s,
      vformat, convert] <;>
    apply String.ext <;>
    simp [decimal, toString_nat, toString_str]

theorem toString_reference_length (v : Nat) (hv : v < 2 ^ 32) :
    (toString_reference v).length ≤ 21 := by
  have hy := Nat.repr_length (v / 31536000) 3 (by decide) (by norm_num; omega)
  have hd := Nat.repr_length (v / 86400 % 365) 3 (by decide) (by norm_num; omega)
  have hh := Nat.repr_length (v / 3600 % 24) 2 (by decide) (by norm_num; omega)
  have hm := Nat.repr_length (v / 60 % 60) 2 (by decide) (by norm_num; omega)
  have hs := Nat.repr_length (v % 60) 2 (by decide) (by norm_num; omega)
  have ly : "y ".length = 2 := rfl
  have ld : "d ".length = 2 := rfl
  have lh : "h ".length = 2 := rfl
  have lm : "m ".length = 2 := rfl
  have ls : "s".length = 1 := rfl
  simp only [toString_reference]
  split_ifs <;> simp [toString_nat, toString_str] <;> omega

/-! ## The digital rendering -/

theorem u16_u16 (n : Nat) : u16 (u16 n) = u16 n := by
  simp only [u16]; omega

theorem toDigital_days_data (t : duration_t) (stray : Nat) :
    (t.toDigital true stray).1.data =
      decimal (u16 t.day) ++ 'd' :: ' ' ::
        (zeroPad 2 (decimal (u16 (u16 t.hour % 24))) ++ ':' ::
          (zeroPad 2 (decimal (u16 (t.minute % 60))) ++ ':' ::
            zeroPad 2 (decimal (u16 (t.second % 60))))) := by
  simp [duration_t.toDigital, sprintf_P, format_days, vformat, convert, zeroPad_zero,
    u16_u16]

theorem toDigital_clock_data (t : duration_t) (stray : Nat) (h : u16 t.hour < 100) :
    (t.toDigital false stray).1.data =
      zeroPad 2 (decimal (u16 t.hour)) ++ ':' ::
        (zeroPad 2 (decimal (u16 (t.minute % 60))) ++ ':' ::
          zeroPad 2 (decimal (u16 (t.second % 60)))) := by
  simp [duration_t.toDigital, sprintf_P, format_clock, vformat, convert, u16_u16, h]

theorem toDigital_long_data (t : duration_t) (stray : Nat) (h : 100 ≤ u16 t.hour) :
    (t.toDigital false stray).1.data =
      decimal (u16 t.hour) ++ ':' ::
        (zeroPad 2 (decimal (u16 (t.minute % 60))) ++ ':' ::
          zeroPad 2 (decimal (u16 stray))) := by
  simp [duration_t.toDigital, sprintf_P, format_long, vformat, convert, u16_u16,
    zeroPad_zero, show ¬ u16 t.hour < 100 by omega]

theorem toDigital_days_length (t : duration_t) (stray : Nat) :
    (t.toDigital true stray).1.length = (decimal (u16 t.day)).length + 10 := by
  show (t.toDigital true stray).1.data.length = _
  rw [toDigital_days_data]
  have h1 : (zeroPad 2 (decimal (u16 (u16 t.hour % 24)))).length = 2 :=
    zeroPad_two_length (by simp only [u16]; omega)
  have h2 : (zeroPad 2 (decimal (u16 (t.minute % 60)))).length = 2 :=
    zeroPad_two_length (by simp only [u16]; omega)
  have h3 : (zeroPad 2 (decimal (u16 (t.second % 60)))).length = 2 :=
    zeroPad_two_length (by simp only [u16]; omega)
  simp only [List.length_append, List.length_cons, h1, h2, h3]

theorem u16_hour_ofSeconds (v : Nat) :
    u16 (duration_t.ofSeconds v).hour = v / 3600 % 65536 := by
  rw [hour_ofSeconds, u16]; omega

theorem u16_minute_ofSeconds (v : Nat) :
    u16 ((duration_t.ofSeconds v).minute % 60) = v / 60 % 60 := by
  rw [minute_ofSeconds, u16]; omega

theorem u16_second_ofSeconds (v : Nat) :
    u16 ((duration_t.ofSeconds v).second % 60) = v % 60 := by
  simp only [duration_t.second, duration_t.ofSeconds, u16]; omega

theorem u16_day_ofSeconds (v : Nat) (hv : v < 2 ^ 32) :
    u16 (duration_t.ofSeconds v).day = v / 86400 := by
  rw [day_ofSeconds v hv, u16]; omega

theorem toDigital_default_ret (t : duration_t) (stray : Nat) :
    (t.toDigital false stray).2 = if u16 t.hour < 100 then 8 else 9 := by
  simp only [duration_t.toDigital]
  split_ifs <;> simp_all

theorem toDigital_days_ret (t : duration_t) (stray : Nat) :
    (t.toDigital true stray).2 = if 10 ≤ t.day then 12 else 11 := by
  simp [duration_t.toDigital, duration_t.day, u16_u16]

theorem toDigital_clock_eq_format (v stray : Nat) (h : v / 3600 < 100) :
    ((duration_t.ofSeconds v).toDigital false stray).1 =
      toDigital_clock_format (v / 3600) (v / 60 % 60) (v % 60) := by
  have hh : u16 (duration_t.ofSeconds v).hour = v / 3600 := by
    rw [u16_hour_ofSeconds]; omega
  apply String.ext
  rw [toDigital_clock_data _ _ (by rw [hh]; exact h), hh, u16_minute_ofSeconds,
    u16_second_ofSeconds]
  have e : ":".data = [':'] := rfl
  simp [toDigital_clock_format, toString_str, twoDigits_data, e]

theorem toDigital_clock_format_length {hh mm ss : Nat} (h1 : hh < 100) (h2 : mm < 100)
    (h3 : ss < 100) : (toDigital_clock_format hh mm ss).length = 8 := by
  have l1 := twoDigits_length h1
  have l2 := twoDigits_length h2
  have l3 := twoDigits_length h3
  have e : ":".length = 1 := rfl
  simp [toDigital_clock_format, toString_str, l1, l2, l3, e]

theorem toDigital_days_format_data (d hh mm ss : Nat) :
    (toDigital_days_format d hh mm ss).data =
      decimal d ++ 'd' :: ' ' ::
        (zeroPad 2 (decimal hh) ++ ':' ::
          (zeroPad 2 (decimal mm) ++ ':' :: zeroPad 2 (decimal ss))) := by
  have e : ":".data = [':'] := rfl
  have e2 : "d ".data = ['d', ' '] := rfl
  simp [toDigital_days_format, toString_str, toString_nat, twoDigits_data, e, e2, decimal]

theorem toDigital_long_format_data (h mm : Nat) :
    (toDigital_long_format h mm).data = decimal h ++ ':' :: zeroPad 2 (decimal mm) := by
  have e : ":".data = [':'] := rfl
  simp [toDigital_long_format, toString_str, toString_nat, twoDigits_data, e, decimal]

theorem toDigital_days_eq (v stray : Nat) (hv : v < 2 ^ 32) :
    ((duration_t.ofSeconds v).toDigital true stray).1.data =
      decimal (v / 86400) ++ 'd' :: ' ' ::
        (zeroPad 2 (decimal (v / 3600 % 65536 % 24)) ++ ':' ::
          (zeroPad 2 (decimal (v / 60 % 60)) ++ ':' :: zeroPad 2 (decimal (v % 60)))) := by
  have hh : u16 (u16 (duration_t.ofSeconds v).hour % 24) = v / 3600 % 65536 % 24 := by
    rw [u16_hour_ofSeconds, u16]; omega
  rw [toDigital_days_data, u16_day_ofSeconds v hv, hh, u16_minute_ofSeconds,
    u16_second_ofSeconds]

/-! ## Claims about `toString` -/

/-- C1: for every 32-bit second count `v`, `toString` writes exactly the
reference format: with `y = v / 31536000`, `d = (v / 86400) mod 365`,
`h = (v / 3600) mod 24`, `m = (v / 60) mod 60`, `s = v mod 60` printed in
decimal without padding, the output starts at the first non-zero unit and runs
down to the seconds. The six rows of the round-trip table are included. -/
theorem toString_renders_reference_format (v : Nat) (hv : v < 2 ^ 32) :
    (duration_t.ofSeconds v).toString = toString_reference v ∧
    (duration_t.ofSeconds 0).toString = "0s" ∧
    (duration_t.ofSeconds 59).toString = "59s" ∧
    (duration_t.ofSeconds 60).toString = "1m 0s" ∧
    (duration_t.ofSeconds 3659).toString = "1h 0m 59s" ∧
    (duration_t.ofSeconds 90061).toString = "1d 1h 1m 1s" ∧
    (duration_t.ofSeconds 31626061).toString = "1y 1d 1h 1m 1s" :=
  ⟨toString_eq_reference v hv, by decide, by decide, by decide, by decide, by decide,
    by decide⟩

theorem toString_renders_reference_format_witness :
    31626061 < 2 ^ 32 ∧
    (duration_t.ofSeconds 31626061).toString = toString_reference 31626061 :=
  ⟨by decide, (toString_renders_reference_format 31626061 (by decide)).1⟩

/-- C2: for every 32-bit second count `v`, the string `toString` writes has at
most 21 visible characters, so with its terminating nul it fits the documented
22-byte buffer; the bound is attained by `v = 4288895999`, which renders as
`"135y 364d 23h 59m 59s"`. -/
theorem toString_fits_22_bytes (v : Nat) (hv : v < 2 ^ 32) :
    (duration_t.ofSeconds v).toString.length ≤ 21 ∧
    (duration_t.ofSeconds v).toString.length + 1 ≤ 22 ∧
    (duration_t.ofSeconds 4288895999).toString = "135y 364d 23h 59m 59s" ∧
    (duration_t.ofSeconds 4288895999).toString.length = 21 := by
  have h := toString_reference_length v hv
  rw [← toString_eq_reference v hv] at h
  exact ⟨h, by omega, by decide, by decide⟩

theorem toString_fits_22_bytes_witness :
    4288895999 < 2 ^ 32 ∧ (duration_t.ofSeconds 4288895999).toString.length ≤ 21 :=
  ⟨by decide, (toString_fits_22_bytes 4288895999 (by decide)).1⟩

/-! ## Claims about the accessors and the comparisons -/

/-- C9: for every 32-bit second count `v`, the accessors of `duration_t(v)` are
exact quotients: `second() = v`, `minute() = v / 60`, `hour() = v / 3600`,
`day() = v / 86400`, `year() = v / 86400 / 365 = v / 31536000`; the values
narrowed to 16 bits in `day()` and to 8 bits in `year()` already fit, with
`day() ≤ 49710` and `year() ≤ 136`. -/
theorem accessors_are_exact_quotients (v : Nat) (hv : v < 2 ^ 32) :
    (duration_t.ofSeconds v).second = v ∧
    (duration_t.ofSeconds v).minute = v / 60 ∧
    (duration_t.ofSeconds v).hour = v / 3600 ∧
    (duration_t.ofSeconds v).day = v / 86400 ∧
    (duration_t.ofSeconds v).year = v / 86400 / 365 ∧
    (duration_t.ofSeconds v).year = v / 31536000 ∧
    (duration_t.ofSeconds v).hour / 24 < 2 ^ 16 ∧
    (duration_t.ofSeconds v).day / 365 < 2 ^ 8 ∧
    (duration_t.ofSeconds v).day ≤ 49710 ∧
    (duration_t.ofSeconds v).year ≤ 136 := by
  rw [year_ofSeconds v hv, day_ofSeconds v hv, hour_ofSeconds, minute_ofSeconds]
  refine ⟨rfl, rfl, rfl, rfl, ?_, rfl, ?_, ?_, ?_, ?_⟩ <;> omega

theorem accessors_are_exact_quotients_witness :
    4294967295 < 2 ^ 32 ∧ (duration_t.ofSeconds 4294967295).day = 4294967295 / 86400 :=
  ⟨by decide, (accessors_are_exact_quotients 4294967295 (by decide)).2.2.2.1⟩

/-- C10: for all second counts `v` and `w`, `duration_t(v) == w` is true if and
only if `v = w`, and `duration_t(v) != w` is the negation of
`duration_t(v) == w`, hence true if and only if `v ≠ w`. -/
theorem eq_ne_compare_value (v w : Nat) :
    ((duration_t.ofSeconds v).eq w = true ↔ v = w) ∧
    (duration_t.ofSeconds v).ne w = !(duration_t.ofSeconds v).eq w ∧
    ((duration_t.ofSeconds v).ne w = true ↔ v ≠ w) := by
  simp [duration_t.eq, duration_t.ne, duration_t.ofSeconds]

/-! ## Claims about `toDigital` -/

/-- C3: for every `v` whose hour count `v / 3600` is below 100, `toDigital` in
the default mode writes exactly the 8-character string `HH:MM:SS` with
`HH = v / 3600`, `MM = (v / 60) mod 60`, `SS = v mod 60`, each zero-padded to
two digits, and returns 8, the length of the written string. The rows
`45 -> "00:00:45"` and `3725 -> "01:02:05"` are included. -/
theorem toDigital_clock_below_100_hours (v stray : Nat) (h : v / 3600 < 100) :
    (duration_t.ofSeconds v).toDigital false stray =
      (toDigital_clock_format (v / 3600) (v / 60 % 60) (v % 60), 8) ∧
    ((duration_t.ofSeconds v).toDigital false stray).1.length = 8 ∧
    ((duration_t.ofSeconds v).toDigital false stray).2 =
      ((duration_t.ofSeconds v).toDigital false stray).1.length ∧
    (duration_t.ofSeconds 45).toDigital false stray = ("00:00:45", 8) ∧
    (duration_t.ofSeconds 3725).toDigital false stray = ("01:02:05", 8) := by
  have hret : ((duration_t.ofSeconds v).toDigital false stray).2 = 8 := by
    rw [toDigital_default_ret, u16_hour_ofSeconds, if_pos (by omega)]
  have hstr := toDigital_clock_eq_format v stray h
  have hlen : ((duration_t.ofSeconds v).toDigital false stray).1.length = 8 := by
    rw [hstr]
    exact toDigital_clock_format_length h (by omega) (by omega)
  refine ⟨Prod.ext hstr hret, hlen, ?_, rfl, rfl⟩
  rw [hret, hlen]

theorem toDigital_clock_below_100_hours_witness :
    3725 / 3600 < 100 ∧
    (duration_t.ofSeconds 3725).toDigital false 0 =
      (toDigital_clock_format (3725 / 3600) (3725 / 60 % 60) (3725 % 60), 8) :=
  ⟨by decide, (toDigital_clock_below_100_hours 3725 0 (by decide)).1⟩

/-- C4, as the code has it: `toDigital` in the default mode returns 9 for every
`v` whose hour count narrowed to 16 bits, `(v / 3600) mod 65536`, is at least
100. -/
theorem toDigital_returns_9_from_100_narrowed_hours (v stray : Nat)
    (h : 100 ≤ v / 3600 % 65536) :
    ((duration_t.ofSeconds v).toDigital false stray).2 = 9 := by
  rw [toDigital_default_ret, u16_hour_ofSeconds, if_neg (by omega)]

theorem toDigital_returns_9_from_100_narrowed_hours_witness :
    100 ≤ 360000 / 3600 % 65536 ∧ ((duration_t.ofSeconds 360000).toDigital false 0).2 = 9 :=
  ⟨by decide, toDigital_returns_9_from_100_narrowed_hours 360000 0 (by decide)⟩

/-- C4 fails as stated: 235929600 seconds is a 32-bit count of 65536 hours, the
narrowed hour count is 0, and `toDigital` in the default mode writes
`"00:00:00"` and returns 8, whatever the stray value. -/
theorem toDigital_returns_8_at_65536_hours :
    235929600 < 2 ^ 32 ∧ 100 ≤ 235929600 / 3600 ∧
    ¬ ∃ stray, (duration_t.ofSeconds 235929600).toDigital false stray ≠ ("00:00:00", 8) := by
  refine ⟨by decide, by decide, ?_⟩
  rintro ⟨stray, h⟩
  exact h rfl

/-- C5, as the code has it: for every `v` whose hour count narrowed to 16 bits,
`h = (v / 3600) mod 65536`, is at least 100, the string `toDigital` writes in
the default mode begins with `h` printed unpadded, a colon, and the minutes
`(v / 60) mod 60` zero-padded to two digits. -/
theorem toDigital_long_begins_hours_minutes (v stray : Nat)
    (h : 100 ≤ v / 3600 % 65536) :
    ∃ rest : String, ((duration_t.ofSeconds v).toDigital false stray).1 =
      toDigital_long_format (v / 3600 % 65536) (v / 60 % 60) ++ rest := by
  refine ⟨String.mk (':' :: zeroPad 2 (decimal (u16 stray))), ?_⟩
  apply String.ext
  rw [toDigital_long_data _ _ (by rw [u16_hour_ofSeconds]; exact h), u16_hour_ofSeconds,
    u16_minute_ofSeconds, String.data_append, toDigital_long_format_data]
  simp

theorem toDigital_long_begins_hours_minutes_witness :
    100 ≤ 360000 / 3600 % 65536 ∧
    ∃ rest : String, ((duration_t.ofSeconds 360000).toDigital false 7).1 =
      toDigital_long_format (360000 / 3600 % 65536) (360000 / 60 % 60) ++ rest :=
  ⟨by decide, toDigital_long_begins_hours_minutes 360000 7 (by decide)⟩

/-- C5 fails as stated: at 360000 seconds (100 hours) the format of the claim is
`"100:00"`, and no stray value makes `toDigital` write that string: the format
of the call has a third conversion after the minutes. -/
theorem toDigital_long_not_hours_minutes_only :
    100 ≤ 360000 / 3600 ∧
    toDigital_long_format (360000 / 3600) (360000 / 60 % 60) = "100:00" ∧
    ¬ ∃ stray, ((duration_t.ofSeconds 360000).toDigital false stray).1 = "100:00" := by
  refine ⟨by decide, by decide, ?_⟩
  rintro ⟨stray, h⟩
  have hlen := congrArg String.length h
  have hdata : ((duration_t.ofSeconds 360000).toDigital false stray).1.length =
      ((duration_t.ofSeconds 360000).toDigital false stray).1.data.length := rfl
  rw [hdata, toDigital_long_data _ _ (by decide)] at hlen
  have h2 := zeroPad_two_length_ge (u16 stray)
  have h3 := zeroPad_two_length_ge (u16 ((duration_t.ofSeconds 360000).minute % 60))
  have h4 := decimal_length_pos (u16 (duration_t.ofSeconds 360000).hour)
  have h6 : "100:00".length = 6 := rfl
  simp only [List.length_append, List.length_cons, h6] at hlen
  omega

/-- C6, as the code has it: for every 32-bit second count `v`, `toDigital` with
`with_days = true` writes `"{d}d {hh}:{mm}:{ss}"` where `d = v / 86400` is
printed unpadded and `hh = ((v / 3600) mod 65536) mod 24` (the hour count
narrowed to 16 bits, then reduced), `mm = (v / 60) mod 60`, `ss = v mod 60` are
each zero-padded to two digits; `hh < 24`, `mm < 60`, `ss < 60`; and `hh` is the
hours-of-day `(v / 3600) mod 24` whenever `v / 3600 < 65536`. The row
`90061 -> "1d 01:01:01"` is included. -/
theorem toDigital_days_writes_narrowed_hours (v stray : Nat) (hv : v < 2 ^ 32) :
    ((duration_t.ofSeconds v).toDigital true stray).1 =
      toDigital_days_format (v / 86400) (v / 3600 % 65536 % 24) (v / 60 % 60) (v % 60) ∧
    (v / 3600 % 65536 % 24 < 24 ∧ v / 60 % 60 < 60 ∧ v % 60 < 60) ∧
    (v / 3600 < 65536 → ((duration_t.ofSeconds v).toDigital true stray).1 =
      toDigital_days_format (v / 86400) (v / 3600 % 24) (v / 60 % 60) (v % 60)) ∧
    ((duration_t.ofSeconds 90061).toDigital true stray).1 = "1d 01:01:01" := by
  have hmain : ((duration_t.ofSeconds v).toDigital true stray).1 =
      toDigital_days_format (v / 86400) (v / 3600 % 65536 % 24) (v / 60 % 60) (v % 60) := by
    apply String.ext
    rw [toDigital_days_eq v stray hv, toDigital_days_format_data]
  refine ⟨hmain, ⟨by omega, by omega, by omega⟩, ?_, rfl⟩
  intro hlt
  rw [hmain, Nat.mod_eq_of_lt hlt]

theorem toDigital_days_writes_narrowed_hours_witness :
    90061 < 2 ^ 32 ∧
    ((duration_t.ofSeconds 90061).toDigital true 0).1 =
      toDigital_days_format (90061 / 86400) (90061 / 3600 % 65536 % 24) (90061 / 60 % 60)
        (90061 % 60) :=
  ⟨by decide, (toDigital_days_writes_narrowed_hours 90061 0 (by decide)).1⟩

/-- C6 fails as stated: at the 32-bit count 235929600 (65536 hours, that is
2730 days and 16 hours) the format of the claim is `"2730d 16:00:00"`, and
`toDigital` with `with_days = true` writes `"2730d 00:00:00"`. -/
theorem toDigital_days_hours_wrap_at_65536_hours :
    235929600 < 2 ^ 32 ∧
    toDigital_days_format (235929600 / 86400) (235929600 / 3600 % 24) (235929600 / 60 % 60)
      (235929600 % 60) = "2730d 16:00:00" ∧
    ¬ ∃ stray, ((duration_t.ofSeconds 235929600).toDigital true stray).1 ≠
      "2730d 00:00:00" := by
  refine ⟨by decide, by decide, ?_⟩
  rintro ⟨stray, h⟩
  exact h rfl

/-- C7: for every `v`, `toDigital` with `with_days = true` returns 12 if
`day() ≥ 10` and 11 otherwise; the returned value equals the number of visible
characters written if and only if `day() < 100`, and for `day() ≥ 100` it is
strictly smaller than that number. -/
theorem toDigital_days_return_value (v stray : Nat) :
    ((duration_t.ofSeconds v).toDigital true stray).2 =
      (if 10 ≤ (duration_t.ofSeconds v).day then 12 else 11) ∧
    (((duration_t.ofSeconds v).toDigital true stray).2 =
        ((duration_t.ofSeconds v).toDigital true stray).1.length ↔
      (duration_t.ofSeconds v).day < 100) ∧
    (100 ≤ (duration_t.ofSeconds v).day →
      ((duration_t.ofSeconds v).toDigital true stray).2 <
        ((duration_t.ofSeconds v).toDigital true stray).1.length) := by
  have hd : u16 (duration_t.ofSeconds v).day = (duration_t.ofSeconds v).day := u16_u16 _
  rw [toDigital_days_ret, toDigital_days_length, hd]
  rcases Nat.lt_or_ge (duration_t.ofSeconds v).day 10 with h1 | h1
  · have hl := decimal_length_one h1
    rw [if_neg (by omega), hl]
    exact ⟨rfl, ⟨fun _ => by omega, fun _ => rfl⟩, fun h => by omega⟩
  · rw [if_pos h1]
    rcases Nat.lt_or_ge (duration_t.ofSeconds v).day 100 with h2 | h2
    · have hl := decimal_length_two h1 h2
      rw [hl]
      exact ⟨rfl, ⟨fun _ => h2, fun _ => rfl⟩, fun h => by omega⟩
    · have hl := decimal_length_ge_three h2
      exact ⟨rfl, ⟨fun h => by omega, fun h => by omega⟩, fun _ => by omega⟩

theorem toDigital_days_return_value_witness :
    100 ≤ (duration_t.ofSeconds 8640000).day ∧
    ((duration_t.ofSeconds 8640000).toDigital true 0).2 <
      ((duration_t.ofSeconds 8640000).toDigital true 0).1.length :=
  ⟨by decide, (toDigital_days_return_value 8640000 0).2.2 (by decide)⟩

/-- C8, as the code has it: for every 32-bit second count `v`, the string
`toDigital` writes with `with_days = true` has at most 15 visible characters
(16 bytes with its terminating nul), a bound attained at `v = 4294967295`; it
has at most 12 visible characters, and so fits a 13-byte buffer, exactly when
`day() < 100`, that is when `v < 8640000`. -/
theorem toDigital_days_fits_16_bytes (v stray : Nat) (hv : v < 2 ^ 32) :
    ((duration_t.ofSeconds v).toDigital true stray).1.length ≤ 15 ∧
    (((duration_t.ofSeconds v).toDigital true stray).1.length ≤ 12 ↔ v < 8640000) ∧
    ((duration_t.ofSeconds 4294967295).toDigital true stray).1 = "49710d 06:28:15" ∧
    ((duration_t.ofSeconds 4294967295).toDigital true stray).1.length = 15 := by
  rw [toDigital_days_length, u16_day_ofSeconds v hv]
  have h5 := decimal_length_le (v / 86400) 5 (by decide) (by norm_num; omega)
  refine ⟨by omega, ⟨fun h => ?_, fun h => ?_⟩, rfl, rfl⟩
  · by_contra hge
    have := decimal_length_ge_three (show 100 ≤ v / 86400 by omega)
    omega
  · have := decimal_length_le (v / 86400) 2 (by decide) (by norm_num; omega)
    omega

theorem toDigital_days_fits_16_bytes_witness :
    4294967295 < 2 ^ 32 ∧
    ((duration_t.ofSeconds 4294967295).toDigital true 0).1.length ≤ 15 :=
  ⟨by decide, (toDigital_days_fits_16_bytes 4294967295 0 (by decide)).1⟩

/-- C8 fails as stated: at the 32-bit count 8640000 (100 days) `toDigital` with
`with_days = true` writes `"100d 00:00:00"`, 13 visible characters, which with
the terminating nul needs 14 bytes. -/
theorem toDigital_days_13_chars_at_100_days :
    8640000 < 2 ^ 32 ∧
    ¬ ∃ stray, ((duration_t.ofSeconds 8640000).toDigital true stray).1.length ≤ 12 := by
  refine ⟨by decide, ?_⟩
  rintro ⟨stray, h⟩
  have h13 : ((duration_t.ofSeconds 8640000).toDigital true stray).1 = "100d 00:00:00" := rfl
  rw [h13] at h
  exact absurd h (by decide)

/-! ## The full rendering, field by field -/

theorem digitChar_isDigit {k : Nat} (h : k < 10) : (Nat.digitChar k).isDigit = true := by
  interval_cases k <;> rfl

theorem digitChar_not_isAlpha {k : Nat} (h : k < 10) : (Nat.digitChar k).isAlpha = false := by
  interval_cases k <;> rfl

theorem readStep_digitChar {k : Nat} (h : k < 10) (st : Nat × Nat) :
    readStep st (Nat.digitChar k) = (st.1, st.2 * 10 + k) := by
  interval_cases k <;> rfl

theorem decimal_isDigit (n : Nat) : ∀ c ∈ decimal n, c.isDigit = true := by
  induction n using Nat.strong_induction_on with
  | _ n ih =>
    intro c hc
    by_cases h : n < 10
    · rw [decimal_lt_ten h, List.mem_singleton] at hc
      rw [hc]; exact digitChar_isDigit h
    · rw [decimal_ge_ten (by omega), List.mem_append, List.mem_singleton] at hc
      rcases hc with hc | hc
      · exact ih (n / 10) (by omega) c hc
      · rw [hc]; exact digitChar_isDigit (by omega)

theorem decimal_countP_isAlpha (n : Nat) : (decimal n).countP Char.isAlpha = 0 := by
  induction n using Nat.strong_induction_on with
  | _ n ih =>
    by_cases h : n < 10
    · rw [decimal_lt_ten h]
      simp [digitChar_not_isAlpha h]
    · rw [decimal_ge_ten (by omega), List.countP_append, ih (n / 10) (by omega)]
      simp [digitChar_not_isAlpha (show n % 10 < 10 by omega)]

theorem foldl_readStep_decimal (n t : Nat) :
    (decimal n).foldl readStep (t, 0) = (t, n) := by
  induction n using Nat.strong_induction_on with
  | _ n ih =>
    by_cases h : n < 10
    · rw [decimal_lt_ten h, List.foldl_cons, List.foldl_nil, readStep_digitChar h]
      simp
    · rw [decimal_ge_ten (by omega), List.foldl_append, ih (n / 10) (by omega),
        List.foldl_cons, List.foldl_nil, readStep_digitChar (by omega)]
      simp only [Prod.mk.injEq, true_and]
      omega

theorem toString_data (v : Nat) (hv : v < 2 ^ 32) :
    (duration_t.ofSeconds v).toString.data = unitFields (fullFields v) := by
  rw [toString_eq_reference v hv]
  simp only [toString_reference, fullFields]
  split_ifs <;> first
    | omega
    | simp [unitFields, decimal, toString_nat, toString_str]

theorem readStep_y (st : Nat × Nat) : readStep st 'y' = (st.1 + st.2 * 31536000, 0) := rfl

theorem readStep_d (st : Nat × Nat) : readStep st 'd' = (st.1 + st.2 * 86400, 0) := rfl

theorem readStep_h (st : Nat × Nat) : readStep st 'h' = (st.1 + st.2 * 3600, 0) := rfl

theorem readStep_m (st : Nat × Nat) : readStep st 'm' = (st.1 + st.2 * 60, 0) := rfl

theorem readStep_s (st : Nat × Nat) : readStep st 's' = (st.1 + st.2, 0) := rfl

theorem readStep_space (st : Nat × Nat) : readStep st ' ' = st := rfl

theorem readSeconds_toString (v : Nat) (hv : v < 2 ^ 32) :
    readSeconds (duration_t.ofSeconds v).toString = v := by
  rw [readSeconds, toString_data v hv]
  simp only [fullFields]
  split_ifs <;>
    simp only [unitFields, List.foldl_append, List.foldl_cons, List.foldl_nil,
      foldl_readStep_decimal, readStep_y, readStep_d, readStep_h, readStep_m, readStep_s,
      readStep_space] <;>
    omega

theorem decimal_eq_zero_iff (n : Nat) : decimal n = ['0'] ↔ n = 0 := by
  constructor
  · intro h
    have h1 := foldl_readStep_decimal n 0
    rw [h] at h1
    have h2 : List.foldl readStep (0, 0) ['0'] = (0, 0) := rfl
    rw [h2] at h1
    exact (congrArg Prod.snd h1).symm
  · intro h
    rw [h]; rfl

theorem find_unit_after_decimal (n : Nat) (u : Char) (rest : List Char)
    (hu : u.isDigit = false) :
    (decimal n ++ u :: rest).find? (fun c => !c.isDigit) = some u := by
  have hnone : (decimal n).find? (fun c => !c.isDigit) = none := by
    rw [List.find?_eq_none]
    intro c hc
    simp [decimal_isDigit n c hc]
  rw [List.find?_append, hnone]
  simp [hu]

theorem takeWhile_digits_decimal (n : Nat) (u : Char) (rest : List Char)
    (hu : u.isDigit = false) :
    (decimal n ++ u :: rest).takeWhile Char.isDigit = decimal n := by
  rw [List.takeWhile_append_of_pos (decimal_isDigit n)]
  simp [hu]

theorem leadingUnit_toString (v : Nat) (hv : v < 2 ^ 32) :
    leadingUnit (duration_t.ofSeconds v).toString =
      some (if 31536000 ≤ v then 'y' else if 86400 ≤ v then 'd' else if 3600 ≤ v then 'h'
        else if 60 ≤ v then 'm' else 's') := by
  rw [leadingUnit, toString_data v hv]
  simp only [fullFields]
  split_ifs <;> simp only [unitFields] <;> exact find_unit_after_decimal _ _ _ rfl

theorem leadingField_toString (v : Nat) (hv : v < 2 ^ 32) :
    leadingField (duration_t.ofSeconds v).toString =
      String.mk (decimal (if 31536000 ≤ v then v / 31536000 else if 86400 ≤ v then v / 86400
        else if 3600 ≤ v then v / 3600 else if 60 ≤ v then v / 60 else v)) := by
  rw [leadingField, toString_data v hv]
  simp only [fullFields]
  split_ifs <;> simp only [unitFields] <;>
    (first
      | rw [takeWhile_digits_decimal _ 'y' _ rfl]
      | rw [takeWhile_digits_decimal _ 'd' _ rfl]
      | rw [takeWhile_digits_decimal _ 'h' _ rfl]
      | rw [takeWhile_digits_decimal _ 'm' _ rfl]
      | rw [takeWhile_digits_decimal _ 's' _ rfl]) <;>
    congr 2 <;> omega

theorem fieldCount_toString (v : Nat) (hv : v < 2 ^ 32) :
    fieldCount (duration_t.ofSeconds v).toString =
      if 31536000 ≤ v then 5 else if 86400 ≤ v then 4 else if 3600 ≤ v then 3
        else if 60 ≤ v then 2 else 1 := by
  rw [fieldCount, toString_data v hv]
  simp only [fullFields]
  split_ifs <;>
    simp [unitFields, List.countP_append, List.countP_cons, decimal_countP_isAlpha]

theorem toString_eq_format (t : duration_t) :
    t.toString = toString_format (u16 t.year) (u16 (t.day % 365)) (u16 (t.hour % 24))
      (u16 (t.minute % 60)) (u16 (t.second % 60)) := by
  simp only [duration_t.toString, toString_format]
  split_ifs <;>
    simp only [sprintf_P, format_ydhms, format_dhms, format_hms, format_ms, format_s,
      vformat, convert] <;>
    apply String.ext <;>
    simp [decimal, toString_nat, toString_str]

/-! ## Claims about the components -/

/-- C12: for every 32-bit second count `v`, the string `toString` writes is the
full format of the five components it computes, `y = year()`,
`d = day() mod 365`, `h = hour() mod 24`, `m = minute() mod 60`,
`s = second() mod 60`, each stored in a 16-bit variable, and these components
form a lossless mixed-radix decomposition of `v`: `d < 365`, `h < 24`, `m < 60`,
`s < 60` and `y * 31536000 + d * 86400 + h * 3600 + m * 60 + s = v`; storing
them in 16 bits alters none of them. -/
theorem toString_components_recompose (v : Nat) (hv : v < 2 ^ 32) :
    (duration_t.ofSeconds v).toString =
      toString_format (u16 (duration_t.ofSeconds v).year)
        (u16 ((duration_t.ofSeconds v).day % 365))
        (u16 ((duration_t.ofSeconds v).hour % 24))
        (u16 ((duration_t.ofSeconds v).minute % 60))
        (u16 ((duration_t.ofSeconds v).second % 60)) ∧
    (u16 ((duration_t.ofSeconds v).day % 365) < 365 ∧
      u16 ((duration_t.ofSeconds v).hour % 24) < 24 ∧
      u16 ((duration_t.ofSeconds v).minute % 60) < 60 ∧
      u16 ((duration_t.ofSeconds v).second % 60) < 60) ∧
    u16 (duration_t.ofSeconds v).year * 31536000 +
        u16 ((duration_t.ofSeconds v).day % 365) * 86400 +
        u16 ((duration_t.ofSeconds v).hour % 24) * 3600 +
        u16 ((duration_t.ofSeconds v).minute % 60) * 60 +
        u16 ((duration_t.ofSeconds v).second % 60) = v ∧
    (u16 (duration_t.ofSeconds v).year = (duration_t.ofSeconds v).year ∧
      u16 ((duration_t.ofSeconds v).day % 365) = (duration_t.ofSeconds v).day % 365 ∧
      u16 ((duration_t.ofSeconds v).hour % 24) = (duration_t.ofSeconds v).hour % 24 ∧
      u16 ((duration_t.ofSeconds v).minute % 60) = (duration_t.ofSeconds v).minute % 60 ∧
      u16 ((duration_t.ofSeconds v).second % 60) = (duration_t.ofSeconds v).second % 60) := by
  refine ⟨toString_eq_format _, ?_⟩
  rw [year_ofSeconds v hv, day_ofSeconds v hv, hour_ofSeconds, minute_ofSeconds]
  simp only [duration_t.second, duration_t.ofSeconds, u16]
  omega

theorem toString_components_recompose_witness :
    31626061 < 2 ^ 32 ∧
    (duration_t.ofSeconds 31626061).toString =
      toString_format (u16 (duration_t.ofSeconds 31626061).year)
        (u16 ((duration_t.ofSeconds 31626061).day % 365))
        (u16 ((duration_t.ofSeconds 31626061).hour % 24))
        (u16 ((duration_t.ofSeconds 31626061).minute % 60))
        (u16 ((duration_t.ofSeconds 31626061).second % 60)) ∧
    u16 (duration_t.ofSeconds 31626061).year * 31536000 +
        u16 ((duration_t.ofSeconds 31626061).day % 365) * 86400 +
        u16 ((duration_t.ofSeconds 31626061).hour % 24) * 3600 +
        u16 ((duration_t.ofSeconds 31626061).minute % 60) * 60 +
        u16 ((duration_t.ofSeconds 31626061).second % 60) = 31626061 :=
  ⟨by decide, (toString_components_recompose 31626061 (by decide)).1,
    (toString_components_recompose 31626061 (by decide)).2.2.1⟩

/-- C14: for every `v` whose hour count `v / 3600` is below 65536, that is
`v < 235929600`, the fields `d`, `hh`, `mm`, `ss` that `toDigital` renders with
`with_days = true` recompose to the duration: `hh < 24`, `mm < 60`, `ss < 60`
and `d * 86400 + hh * 3600 + mm * 60 + ss = v`. -/
theorem toDigital_days_fields_recompose (v stray : Nat) (h : v / 3600 < 65536) :
    v < 235929600 ∧
    ((duration_t.ofSeconds v).toDigital true stray).1 =
      toDigital_days_format (u16 (duration_t.ofSeconds v).day)
        (u16 (duration_t.ofSeconds v).hour % 24)
        (u16 ((duration_t.ofSeconds v).minute % 60))
        (u16 ((duration_t.ofSeconds v).second % 60)) ∧
    (u16 (duration_t.ofSeconds v).hour % 24 < 24 ∧
      u16 ((duration_t.ofSeconds v).minute % 60) < 60 ∧
      u16 ((duration_t.ofSeconds v).second % 60) < 60) ∧
    u16 (duration_t.ofSeconds v).day * 86400 +
        u16 (duration_t.ofSeconds v).hour % 24 * 3600 +
        u16 ((duration_t.ofSeconds v).minute % 60) * 60 +
        u16 ((duration_t.ofSeconds v).second % 60) = v := by
  have hv : v < 2 ^ 32 := by omega
  refine ⟨by omega, ?_, ?_, ?_⟩
  · apply String.ext
    have hh : u16 (u16 (duration_t.ofSeconds v).hour % 24) =
        u16 (duration_t.ofSeconds v).hour % 24 := by
      simp only [u16]; omega
    rw [toDigital_days_data, toDigital_days_format_data, hh]
  · rw [u16_hour_ofSeconds, u16_minute_ofSeconds, u16_second_ofSeconds]
    omega
  · rw [u16_day_ofSeconds v hv, u16_hour_ofSeconds, u16_minute_ofSeconds,
      u16_second_ofSeconds]
    omega

theorem toDigital_days_fields_recompose_witness :
    90061 / 3600 < 65536 ∧
    u16 (duration_t.ofSeconds 90061).day * 86400 +
        u16 (duration_t.ofSeconds 90061).hour % 24 * 3600 +
        u16 ((duration_t.ofSeconds 90061).minute % 60) * 60 +
        u16 ((duration_t.ofSeconds 90061).second % 60) = 90061 :=
  ⟨by decide, (toDigital_days_fields_recompose 90061 0 (by decide)).2.2.2⟩

/-! ## Claims about the shape of the full rendering -/

/-- C11: for every 32-bit second count `v`, the unit `toString` leads with is
decided by the magnitude of `v` alone: the output has exactly one field, the
seconds, iff `v < 60`; it leads with minutes iff `60 ≤ v < 3600`, with hours
iff `3600 ≤ v < 86400`, with days iff `86400 ≤ v < 31536000`, and with years
iff `v ≥ 31536000`; and the leading numeric field is `0` only for `v = 0`. -/
theorem toString_leading_unit_by_magnitude (v : Nat) (hv : v < 2 ^ 32) :
    (fieldCount (duration_t.ofSeconds v).toString = 1 ↔ v < 60) ∧
    (leadingUnit (duration_t.ofSeconds v).toString = some 's' ↔ v < 60) ∧
    (leadingUnit (duration_t.ofSeconds v).toString = some 'm' ↔ 60 ≤ v ∧ v < 3600) ∧
    (leadingUnit (duration_t.ofSeconds v).toString = some 'h' ↔ 3600 ≤ v ∧ v < 86400) ∧
    (leadingUnit (duration_t.ofSeconds v).toString = some 'd' ↔
      86400 ≤ v ∧ v < 31536000) ∧
    (leadingUnit (duration_t.ofSeconds v).toString = some 'y' ↔ 31536000 ≤ v) ∧
    (leadingField (duration_t.ofSeconds v).toString = "0" ↔ v = 0) := by
  rw [fieldCount_toString v hv, leadingUnit_toString v hv, leadingField_toString v hv]
  have hz : ∀ n : Nat, String.mk (decimal n) = "0" ↔ n = 0 := by
    intro n
    rw [← decimal_eq_zero_iff n]
    exact ⟨fun h => congrArg String.data h, fun h => congrArg String.mk h⟩
  rw [hz]
  split_ifs <;> simp <;> omega

theorem toString_leading_unit_by_magnitude_witness :
    3659 < 2 ^ 32 ∧ (3600 ≤ 3659 ∧ 3659 < 86400) ∧
    leadingUnit (duration_t.ofSeconds 3659).toString = some 'h' :=
  ⟨by decide, by decide,
    (toString_leading_unit_by_magnitude 3659 (by decide)).2.2.2.1.mpr (by decide)⟩

/-- C13: `toString` is injective on 32-bit second counts: if `duration_t(v)` and
`duration_t(w)` write the same string, then `v = w`. -/
theorem toString_injective (v w : Nat) (hv : v < 2 ^ 32) (hw : w < 2 ^ 32)
    (h : (duration_t.ofSeconds v).toString = (duration_t.ofSeconds w).toString) : v = w := by
  rw [← readSeconds_toString v hv, ← readSeconds_toString w hw, h]

theorem toString_injective_witness :
    60 < 2 ^ 32 ∧
    (duration_t.ofSeconds 60).toString = (duration_t.ofSeconds 60).toString ∧ 60 = 60 :=
  ⟨by decide, rfl, toString_injective 60 60 (by decide) (by decide) rfl⟩

end Marlin
